import Mathlib

/-!
Shallow embedding of the MOEX hot-stock pipeline (src/fetchMoexData.js).

Modelling conventions:
* JavaScript `Map` objects are modelled as association lists (`List (key × value)`)
  with JS `Map.set` semantics: replacing an existing key keeps its position,
  a new key is appended at the end.  Iteration order is list order, matching
  JS `Map` insertion-order iteration.
* JS `Date` values are modelled by their day number (days since 1970-01-01);
  `getDay` (0 = Sunday .. 6 = Saturday) is day-number arithmetic mod 7
  (1970-01-01 was a Thursday), and `date.setDate(date.getDate() - 1)` is
  subtraction of one day.  Calendar fields for formatting are recovered by
  the standard Gregorian civil-from-days conversion.
* JS `BigInt` is modelled as `ℤ`; JS `BigInt` division truncates toward zero,
  which is `Int.tdiv`.
* JS `Number` values appearing in the data (CLOSE prices, cursor fields) are
  modelled as exact rationals `ℚ`; binary64 rounding is not modelled.
  `Math.round` is Mathlib `round` (round half toward +infinity) and
  `Math.trunc` is truncation toward zero.
* The network is modelled as a stream of responses: each `fetch` call consumes
  the next element of the list (`Except.error` = transport failure / non-2xx
  HTTP status, i.e. the promise rejects; `Except.ok` = parsed JSON page).
  Each run also records the trace of issued requests (date and `start` offset).
* The unbounded JS `while` loop in `loadData` consumes one response per
  fetch, so it recurses structurally on the response stream; running out of
  responses is the `timeout` outcome (the JS promise never settles, or the
  loop keeps spinning).
-/

namespace Moex

/-! ### Association-list model of JS `Map` -/

variable {α : Type} {β : Type}

/-- Lookup in a JS `Map`: the value stored at key `k`, if any. -/
def mget [DecidableEq α] (k : α) : List (α × β) → Option β
  | [] => none
  | (k1, v1) :: t => if k1 = k then some v1 else mget k t

/-- JS `Map.set`: replace the value at an existing key (keeping its position),
or append a fresh `(k, v)` entry at the end. -/
def mset [DecidableEq α] (k : α) (v : β) : List (α × β) → List (α × β)
  | [] => [(k, v)]
  | (k1, v1) :: t => if k1 = k then (k, v) :: t else (k1, v1) :: mset k v t

/-- JS `Map.has`. -/
def mhas [DecidableEq α] (k : α) (m : List (α × β)) : Bool :=
  (mget k m).isSome

@[simp] theorem mget_nil [DecidableEq α] (k : α) : mget k ([] : List (α × β)) = none := rfl

theorem mget_cons [DecidableEq α] (k k1 : α) (v1 : β) (t : List (α × β)) :
    mget k ((k1, v1) :: t) = if k1 = k then some v1 else mget k t := rfl

@[simp] theorem mget_mset_self [DecidableEq α] (k : α) (v : β) (m : List (α × β)) :
    mget k (mset k v m) = some v := by
  induction m with
  | nil => simp [mget, mset]
  | cons p t ih =>
    obtain ⟨k1, v1⟩ := p
    by_cases h : k1 = k
    · simp [mget, mset, h]
    · simp [mget, mset, h, ih]

@[simp] theorem mget_mset_ne [DecidableEq α] (k k' : α) (v : β) (m : List (α × β))
    (h : k' ≠ k) : mget k (mset k' v m) = mget k m := by
  induction m with
  | nil => simp [mget, mset, h]
  | cons p t ih =>
    obtain ⟨k1, v1⟩ := p
    by_cases h1 : k1 = k'
    · subst h1
      simp [mget, mset, mget_cons, h]
    · simp [mset, h1, mget_cons, ih]

/-- A successful lookup exhibits a matching entry of the list. -/
theorem mget_some_mem [DecidableEq α] {k : α} {v : β} {m : List (α × β)}
    (h : mget k m = some v) : (k, v) ∈ m := by
  induction m with
  | nil => simp [mget] at h
  | cons p t ih =>
    obtain ⟨k1, v1⟩ := p
    rw [mget_cons] at h
    by_cases hk : k1 = k
    · simp [hk] at h
      subst hk h
      exact List.mem_cons_self _ _
    · simp [hk] at h
      exact List.mem_cons_of_mem _ (ih h)

/-- A list member is found by `mget` (at the member value or an earlier one). -/
theorem mget_isSome_of_mem [DecidableEq α] {k : α} {v : β} {m : List (α × β)}
    (h : (k, v) ∈ m) : (mget k m).isSome = true := by
  induction m with
  | nil => simp at h
  | cons p t ih =>
    obtain ⟨k1, v1⟩ := p
    rw [List.mem_cons] at h
    rw [mget_cons]
    by_cases hk : k1 = k
    · simp [hk]
    · rcases h with h | h
      · exact absurd (congrArg Prod.fst h).symm hk
      · simpa [hk] using ih h

/-! ### BusinessDaySequence: `workDaysGenerator` and `formatDate`

The JS generator starts from `startDate`, repeatedly steps one day back,
skips Saturdays and Sundays, and yields `daysBack + 1` formatted dates. -/

/-- JS `Date.prototype.getDay` on a day number: 0 = Sunday .. 6 = Saturday
(day 0 = 1970-01-01 was a Thursday). -/
def getDay (n : ℤ) : ℤ := (n + 4) % 7

/-- The weekend test `dayOfWeek === 0 || dayOfWeek === 6` from the generator. -/
def isWeekend (n : ℤ) : Bool := getDay n == 0 || getDay n == 6

/-- One iteration block of the generator loop: step back one day, and keep
stepping while the day is a Saturday or Sunday.  At most two weekend days are
ever consecutive, so at most two extra steps happen (`workDaysFuel_eq` below
proves this unfolding equivalent to the literal fuelled loop). -/
def prevWorkDay (n : ℤ) : ℤ :=
  if isWeekend (n - 1) then (if isWeekend (n - 2) then n - 3 else n - 2) else n - 1

/-- The sequence of day numbers yielded by `workDaysGenerator`:
`k` business days strictly before `n`, most recent first. -/
def workDaysAux : ℕ → ℤ → List ℤ
  | 0, _ => []
  | k + 1, n => prevWorkDay n :: workDaysAux k (prevWorkDay n)

/-- Literal transcription of the JS generator loop, with explicit fuel: one
unit of fuel per `while` iteration.  `k` counts the remaining yields
(`daysBack + 1 - i` in the source); a weekend day consumes fuel without
yielding, exactly like the `continue` branch. -/
def workDaysFuel : ℕ → ℕ → ℤ → List ℤ
  | 0, _, _ => []
  | _ + 1, 0, _ => []
  | f + 1, k + 1, n =>
    if isWeekend (n - 1) then workDaysFuel f (k + 1) (n - 1)
    else (n - 1) :: workDaysFuel f k (n - 1)

/-- Gregorian calendar fields `(year, month, day)` of a day number
(days since 1970-01-01); standard civil-from-days conversion. -/
def civilFromDays (z : ℤ) : ℤ × ℕ × ℕ :=
  let z2 := z + 719468
  let era := Int.fdiv z2 146097
  let doe : ℕ := (z2 - era * 146097).toNat
  let yoe : ℕ := (doe - doe / 1460 + doe / 36524 - doe / 146096) / 365
  let y : ℤ := (yoe : ℤ) + era * 400
  let doy : ℕ := doe - (365 * yoe + yoe / 4 - yoe / 100)
  let mp : ℕ := (5 * doy + 2) / 153
  let d : ℕ := doy - (153 * mp + 2) / 5 + 1
  let m : ℕ := if mp < 10 then mp + 3 else mp - 9
  (if m ≤ 2 then y + 1 else y, m, d)

/-- JS `String(x).padStart(2, "0")` for month and day fields. -/
def pad2 (n : ℕ) : String := if n < 10 then "0" ++ toString n else toString n

/-- JS `formatDate`: `YYYY-MM-DD` from the calendar fields of the date itself. -/
def formatDate (day : ℤ) : String :=
  let c := civilFromDays day
  toString c.1 ++ "-" ++ pad2 c.2.1 ++ "-" ++ pad2 c.2.2

/-- JS `workDaysGenerator(daysBack, startDate)`: the `daysBack + 1` business
days strictly before `start`, most recent first, each formatted `YYYY-MM-DD`. -/
def workDaysGenerator (daysBack : ℕ) (start : ℤ) : List String :=
  (workDaysAux (daysBack + 1) start).map formatDate

theorem isWeekend_iff (n : ℤ) :
    isWeekend n = true ↔ (n + 4) % 7 = 0 ∨ (n + 4) % 7 = 6 := by
  simp [isWeekend, getDay]

/-- Three consecutive days cannot all be weekend days. -/
theorem weekend_run_short (n : ℤ) (h1 : isWeekend (n - 1) = true)
    (h2 : isWeekend (n - 2) = true) : isWeekend (n - 3) = false := by
  have h1' := (isWeekend_iff _).mp h1
  have h2' := (isWeekend_iff _).mp h2
  rw [Bool.eq_false_iff]
  intro hc
  have h3' := (isWeekend_iff _).mp hc
  omega

theorem not_isWeekend_prevWorkDay (n : ℤ) : isWeekend (prevWorkDay n) = false := by
  unfold prevWorkDay
  by_cases h1 : isWeekend (n - 1) = true
  · by_cases h2 : isWeekend (n - 2) = true
    · rw [if_pos h1, if_pos h2]
      exact weekend_run_short n h1 h2
    · rw [if_pos h1, if_neg h2]
      exact Bool.eq_false_iff.mpr h2
  · rw [if_neg h1]
    exact Bool.eq_false_iff.mpr h1

theorem prevWorkDay_lt (n : ℤ) : prevWorkDay n < n := by
  unfold prevWorkDay
  split <;> [skip; omega]
  split <;> omega

theorem prevWorkDay_ge (n : ℤ) : n - 3 ≤ prevWorkDay n := by
  unfold prevWorkDay
  split <;> [skip; omega]
  split <;> omega

theorem workDaysAux_length (k : ℕ) : ∀ n : ℤ, (workDaysAux k n).length = k := by
  induction k with
  | zero => intro n; rfl
  | succ k ih => intro n; simp [workDaysAux, ih]

theorem workDaysAux_lt (k : ℕ) : ∀ n : ℤ, ∀ d ∈ workDaysAux k n, d < n := by
  induction k with
  | zero => intro n d hd; simp [workDaysAux] at hd
  | succ k ih =>
    intro n d hd
    simp only [workDaysAux, List.mem_cons] at hd
    rcases hd with rfl | hd
    · exact prevWorkDay_lt n
    · exact lt_trans (ih (prevWorkDay n) d hd) (prevWorkDay_lt n)

theorem workDaysAux_chain (k : ℕ) : ∀ n : ℤ, List.Chain' (· > ·) (workDaysAux k n) := by
  induction k with
  | zero => intro n; simp [workDaysAux]
  | succ k ih =>
    intro n
    cases k with
    | zero => simp [workDaysAux]
    | succ k' =>
      refine List.Chain'.cons ?_ (ih (prevWorkDay n))
      exact prevWorkDay_lt (prevWorkDay n)

theorem workDaysAux_not_weekend (k : ℕ) :
    ∀ n : ℤ, ∀ d ∈ workDaysAux k n, isWeekend d = false := by
  induction k with
  | zero => intro n d hd; simp [workDaysAux] at hd
  | succ k ih =>
    intro n d hd
    simp only [workDaysAux, List.mem_cons] at hd
    rcases hd with rfl | hd
    · exact not_isWeekend_prevWorkDay n
    · exact ih (prevWorkDay n) d hd

/-- The literal fuelled generator loop agrees with `workDaysAux` whenever the
fuel covers the worst case of two weekend skips per yielded day. -/
theorem workDaysFuel_eq :
    ∀ (k : ℕ) (n : ℤ) (f : ℕ), 3 * k ≤ f → workDaysFuel f k n = workDaysAux k n := by
  intro k
  induction k with
  | zero =>
    intro n f _
    cases f with
    | zero => rfl
    | succ f => rfl
  | succ k ih =>
    intro n f hf
    by_cases h1 : isWeekend (n - 1) = true
    · by_cases h2 : isWeekend (n - 2) = true
      · obtain ⟨f3, rfl⟩ : ∃ f3, f = f3 + 1 + 1 + 1 := ⟨f - 3, by omega⟩
        have h3 : isWeekend (n - 3) = false := weekend_run_short n h1 h2
        have hstep1 : workDaysFuel (f3 + 1 + 1 + 1) (k + 1) n
            = workDaysFuel (f3 + 1 + 1) (k + 1) (n - 1) := by
          simp only [workDaysFuel, h1, if_true]
        have hstep2 : workDaysFuel (f3 + 1 + 1) (k + 1) (n - 1)
            = workDaysFuel (f3 + 1) (k + 1) (n - 2) := by
          simp only [workDaysFuel]
          rw [show n - 1 - 1 = n - 2 by ring, if_pos h2]
        have hstep3 : workDaysFuel (f3 + 1) (k + 1) (n - 2)
            = (n - 3) :: workDaysFuel f3 k (n - 3) := by
          simp only [workDaysFuel]
          rw [show n - 2 - 1 = n - 3 by ring, h3]
          simp
        have hp : prevWorkDay n = n - 3 := by
          unfold prevWorkDay
          rw [if_pos h1, if_pos h2]
        rw [hstep1, hstep2, hstep3, workDaysAux, hp, ih (n - 3) f3 (by omega)]
      · obtain ⟨f2, rfl⟩ : ∃ f2, f = f2 + 1 + 1 := ⟨f - 2, by omega⟩
        have hstep1 : workDaysFuel (f2 + 1 + 1) (k + 1) n
            = workDaysFuel (f2 + 1) (k + 1) (n - 1) := by
          simp only [workDaysFuel, h1, if_true]
        have hstep2 : workDaysFuel (f2 + 1) (k + 1) (n - 1)
            = (n - 2) :: workDaysFuel f2 k (n - 2) := by
          simp only [workDaysFuel]
          rw [show n - 1 - 1 = n - 2 by ring, if_neg h2]
        have hp : prevWorkDay n = n - 2 := by
          unfold prevWorkDay
          rw [if_pos h1, if_neg h2]
        rw [hstep1, hstep2, workDaysAux, hp, ih (n - 2) f2 (by omega)]
    · obtain ⟨f1, rfl⟩ : ∃ f1, f = f1 + 1 := ⟨f - 1, by omega⟩
      have hstep1 : workDaysFuel (f1 + 1) (k + 1) n = (n - 1) :: workDaysFuel f1 k (n - 1) := by
        simp only [workDaysFuel]
        rw [if_neg h1]
      have hp : prevWorkDay n = n - 1 := by
        unfold prevWorkDay
        rw [if_neg h1]
      rw [hstep1, workDaysAux, hp, ih (n - 1) f1 (by omega)]

/-- C4: for every `daysBack ≥ 0` and every start day, `workDaysGenerator`
yields exactly `daysBack + 1` date strings, the underlying day numbers are
strictly decreasing and all strictly before the start day, none falls on a
Saturday or Sunday, each string is the `YYYY-MM-DD` formatting of the
calendar fields of its date, and the literal fuelled generator loop produces the same
sequence whenever its fuel suffices. -/
theorem workDaysGenerator_spec (daysBack : ℕ) (start : ℤ) :
    (workDaysGenerator daysBack start).length = daysBack + 1 ∧
    workDaysGenerator daysBack start = (workDaysAux (daysBack + 1) start).map formatDate ∧
    List.Chain' (· > ·) (workDaysAux (daysBack + 1) start) ∧
    (∀ d ∈ workDaysAux (daysBack + 1) start, d < start) ∧
    (∀ d ∈ workDaysAux (daysBack + 1) start, isWeekend d = false) ∧
    (∀ f, 3 * (daysBack + 1) ≤ f →
      workDaysFuel f (daysBack + 1) start = workDaysAux (daysBack + 1) start) := by
  refine ⟨?_, rfl, workDaysAux_chain _ _, workDaysAux_lt _ _, workDaysAux_not_weekend _ _,
    fun f hf => workDaysFuel_eq _ _ f hf⟩
  simp [workDaysGenerator, workDaysAux_length]

/-- Witness for C4 at `daysBack = 2` starting from day 19727 (Friday,
2024-01-05): three dates, the first one the strictly earlier Thursday. -/
theorem workDaysGenerator_spec_witness :
    (workDaysGenerator 2 19727).length = 3 ∧
    19726 < (19727 : ℤ) ∧
    isWeekend 19726 = false ∧
    workDaysFuel 9 3 19727 = workDaysAux 3 19727 := by
  refine ⟨(workDaysGenerator_spec 2 19727).1, ?_, ?_, ?_⟩
  · exact (workDaysGenerator_spec 2 19727).2.2.2.1 19726 (by decide)
  · exact (workDaysGenerator_spec 2 19727).2.2.2.2.1 19726 (by decide)
  · exact (workDaysGenerator_spec 2 19727).2.2.2.2.2 9 (by decide)

/-! ### RatioArithmetic: `divideBigInt`

JS: `Number((a * 100n) / b) / 100` followed by `Math.round(result * 10) / 10`.
BigInt division truncates toward zero (`Int.tdiv`); the floating-point tail is
modelled as exact rational arithmetic, with `Math.round` as Mathlib `round`
(round half toward positive infinity, which is what `Math.round` does). -/

/-- JS `divideBigInt(a, b)`. -/
def divideBigInt (a b : ℤ) : ℚ :=
  let result : ℚ := (((a * 100).tdiv b : ℤ) : ℚ) / 100
  ((round (result * 10) : ℤ) : ℚ) / 10

/-- JS `Math.trunc`: truncation toward zero. -/
def jsTrunc (q : ℚ) : ℤ := if q < 0 then ⌈q⌉ else ⌊q⌋

/-- C5: RatioArithmetic is scale-invariant: for non-negative `a`, positive `b`
and positive `k`, `divideBigInt (k * a) (k * b) = divideBigInt a b`.
(Determinism is immediate: `divideBigInt` is a function of its arguments.) -/
theorem divideBigInt_scale_invariant (a b k : ℤ) (ha : 0 ≤ a) (hb : 0 < b) (hk : 0 < k) :
    divideBigInt (k * a) (k * b) = divideBigInt a b := by
  unfold divideBigInt
  have h1 : (0 : ℤ) ≤ k * a * 100 := by
    have := mul_nonneg hk.le ha
    nlinarith
  have h2 : (0 : ℤ) ≤ a * 100 := by nlinarith
  have hq : (k * a * 100).tdiv (k * b) = (a * 100).tdiv b := by
    rw [Int.tdiv_eq_ediv h1 (by nlinarith), Int.tdiv_eq_ediv h2 hb.le,
      show k * a * 100 = k * (a * 100) by ring]
    exact Int.mul_ediv_mul_of_pos _ _ hk
  rw [hq]

/-- Witness for C5 at `a = 150`, `b = 100`, `k = 3`. -/
theorem divideBigInt_scale_invariant_witness :
    (0 : ℤ) ≤ 150 ∧ (0 : ℤ) < 100 ∧ (0 : ℤ) < 3 ∧
    divideBigInt (3 * 150) (3 * 100) = divideBigInt 150 100 :=
  ⟨by decide, by decide, by decide,
    divideBigInt_scale_invariant 150 100 3 (by decide) (by decide) (by decide)⟩

/-- The description of RatioArithmetic in the spec, stated from its words: multiply
the numerator by 100, divide by the denominator with truncating integer
division, convert to a decimal by dividing by 100, then round to one decimal
place (standard rounding of the value scaled by 10). -/
def ratioSpec (a b : ℤ) : ℚ :=
  let q : ℤ := (a * 100).tdiv b
  ((round (((q : ℚ) / 100) * 10) : ℤ) : ℚ) / 10

/-- C6: `divideBigInt` computes exactly the spec formula, and in particular
`divideBigInt 150 100 = 1.5` and `divideBigInt 1 3 = 0.3`. -/
theorem divideBigInt_formula :
    (∀ a b : ℤ, divideBigInt a b = ratioSpec a b) ∧
    divideBigInt 150 100 = 1.5 ∧ divideBigInt 1 3 = 0.3 := by
  refine ⟨fun a b => rfl, ?_, ?_⟩
  · norm_num [divideBigInt, round_eq, Int.tdiv]
  · norm_num [divideBigInt, round_eq, Int.tdiv]

/-! ### Data model -/

/-- A JSON cell of a history or cursor row: a string (e.g. `SECID`) or a
number (e.g. `VOLUME`, `CLOSE`, cursor fields).  Numbers are exact rationals. -/
inductive Cell : Type
  | s (v : String)
  | n (v : ℚ)
deriving DecidableEq

/-- Per-(date, security) record stored by `loadData`:
`volume = BigInt(row[idxVol])` and `turnover = row[idxVol] * row[idxClose]`
(the turnover is a plain JS `Number` product, modelled exactly). -/
structure SecRec where
  volume : ℤ
  turnover : ℚ
deriving DecidableEq

/-- DaySnapshot: JS `Map` from `SECID` cell to its record. -/
abbrev DayMap : Type := List (Cell × SecRec)

/-- WindowDataset: JS `Map` from date string to DaySnapshot. -/
abbrev Dataset : Type := List (String × DayMap)

/-! ### VolumeAverager: `computeAverageVolume` -/

/-- The `{ totalVolume, count }` accumulator object, before the `average`
field is attached. -/
structure PreAvg where
  totalVolume : ℤ
  count : ℕ
deriving DecidableEq

/-- AverageEntry after the second pass added `average`. -/
structure AvgEntry where
  totalVolume : ℤ
  count : ℕ
  average : ℤ
deriving DecidableEq

/-- One inner-loop iteration of the first pass of `computeAverageVolume`:
create a zero entry if the security is new, then add the volume of this record and
bump the count. -/
def bumpSec (m : List (Cell × PreAvg)) (secId : Cell) (vol : ℤ) : List (Cell × PreAvg) :=
  let m1 := if mhas secId m then m else mset secId ⟨0, 0⟩ m
  match mget secId m1 with
  | some cur => mset secId ⟨cur.totalVolume + vol, cur.count + 1⟩ m1
  | none => m1

/-- The inner loop of the first pass over the records of one day. -/
def accumVolumes (m : List (Cell × PreAvg)) (recs : DayMap) : List (Cell × PreAvg) :=
  recs.foldl (fun m p => bumpSec m p.1 p.2.volume) m

/-- The second pass of `computeAverageVolume`: attach
`data.average = data.totalVolume / BigInt(data.count)` to one entry
(BigInt division truncates toward zero). -/
def attachAverage (p : Cell × PreAvg) : Cell × AvgEntry :=
  (p.1, ⟨p.2.totalVolume, p.2.count, p.2.totalVolume.tdiv (p.2.count : ℤ)⟩)

/-- JS `computeAverageVolume`: accumulate `totalVolume` and `count` per
security over the whole dataset, then attach the truncated average to every
entry. -/
def computeAverageVolume (imoexData : Dataset) : List (Cell × AvgEntry) :=
  (imoexData.foldl (fun m d => accumVolumes m d.2) []).map attachAverage

/-- All records of the dataset, flattened in iteration order. -/
def records (ds : Dataset) : List (Cell × SecRec) :=
  ds.flatMap fun d => d.2

/-- The volumes of the records carrying the given security id, in order. -/
def occVols (secId : Cell) (recs : List (Cell × SecRec)) : List ℤ :=
  (recs.filter fun p => decide (p.1 = secId)).map fun p => p.2.volume

/-- The per-day appearances of a security: for each day on which it is
present, its volume on that day (days where it is absent contribute
nothing).  This is how the spec reads the VolumeAverager contract. -/
def appearances (secId : Cell) (ds : Dataset) : List ℤ :=
  ds.filterMap fun d => (mget secId d.2).map SecRec.volume

theorem mget_bumpSec_ne (m : List (Cell × PreAvg)) (secId k : Cell) (vol : ℤ)
    (h : secId ≠ k) : mget k (bumpSec m secId vol) = mget k m := by
  unfold bumpSec
  set m1 := if mhas secId m then m else mset secId ⟨0, 0⟩ m with hm1
  have hk : mget k m1 = mget k m := by
    rw [hm1]
    split
    · rfl
    · exact mget_mset_ne _ _ _ _ h
  cases hg : mget secId m1 with
  | some cur => simp only [hg]; rw [mget_mset_ne _ _ _ _ h, hk]
  | none => simp only [hg]; exact hk

theorem mget_bumpSec_self_none (m : List (Cell × PreAvg)) (secId : Cell) (vol : ℤ)
    (h : mget secId m = none) : mget secId (bumpSec m secId vol) = some ⟨vol, 1⟩ := by
  unfold bumpSec
  have hh : mhas secId m = false := by simp [mhas, h]
  simp only [hh, Bool.false_eq_true, if_false, mget_mset_self]
  simp

theorem mget_bumpSec_self_some (m : List (Cell × PreAvg)) (secId : Cell) (vol : ℤ)
    (cur : PreAvg) (h : mget secId m = some cur) :
    mget secId (bumpSec m secId vol) = some ⟨cur.totalVolume + vol, cur.count + 1⟩ := by
  unfold bumpSec
  have hh : mhas secId m = true := by simp [mhas, h]
  simp only [hh, if_true, h, mget_mset_self]

theorem mget_accumVolumes (secId : Cell) :
    ∀ (recs : List (Cell × SecRec)) (m : List (Cell × PreAvg)),
    mget secId (accumVolumes m recs) =
      match mget secId m with
      | none =>
          if occVols secId recs = [] then none
          else some ⟨(occVols secId recs).sum, (occVols secId recs).length⟩
      | some e =>
          some ⟨e.totalVolume + (occVols secId recs).sum,
                e.count + (occVols secId recs).length⟩ := by
  intro recs
  induction recs with
  | nil =>
    intro m
    cases h : mget secId m with
    | none => simp [accumVolumes, occVols, h]
    | some e => simp [accumVolumes, occVols, h]
  | cons p rest ih =>
    intro m
    obtain ⟨k1, v1⟩ := p
    have hstep : accumVolumes m ((k1, v1) :: rest)
        = accumVolumes (bumpSec m k1 v1.volume) rest := rfl
    rw [hstep, ih]
    by_cases hp : k1 = secId
    · subst hp
      have hocc : occVols k1 ((k1, v1) :: rest) = v1.volume :: occVols k1 rest := by
        simp [occVols, List.filter_cons]
      cases h : mget k1 m with
      | none =>
        rw [mget_bumpSec_self_none m k1 v1.volume h, hocc]
        simp [List.cons_ne_nil]
        try omega
      | some e =>
        rw [mget_bumpSec_self_some m k1 v1.volume e h, hocc]
        simp
        try omega
    · have hocc : occVols secId ((k1, v1) :: rest) = occVols secId rest := by
        simp [occVols, List.filter_cons, hp]
      rw [mget_bumpSec_ne m k1 secId v1.volume hp, hocc]

theorem foldl_accumVolumes :
    ∀ (ds : Dataset) (m : List (Cell × PreAvg)),
    ds.foldl (fun m d => accumVolumes m d.2) m = accumVolumes m (records ds) := by
  intro ds
  induction ds with
  | nil => intro m; rfl
  | cons d rest ih =>
    intro m
    have hrec : records (d :: rest) = d.2 ++ records rest := by
      simp [records]
    rw [List.foldl_cons, ih, hrec]
    unfold accumVolumes
    rw [List.foldl_append]

theorem mget_map_attachAverage (m : List (Cell × PreAvg)) (k : Cell) :
    mget k (m.map attachAverage) = (mget k m).map fun e =>
      (⟨e.totalVolume, e.count, e.totalVolume.tdiv (e.count : ℤ)⟩ : AvgEntry) := by
  induction m with
  | nil => rfl
  | cons p t ih =>
    obtain ⟨k1, v1⟩ := p
    by_cases h : k1 = k
    · simp [attachAverage, mget_cons, h]
    · simp [attachAverage, mget_cons, h, ih]

theorem occVols_nil_of_not_mem (secId : Cell) (recs : List (Cell × SecRec))
    (h : secId ∉ recs.map Prod.fst) : occVols secId recs = [] := by
  induction recs with
  | nil => rfl
  | cons p t ih =>
    simp only [List.map_cons, List.mem_cons, not_or] at h
    have hp : ¬ p.1 = secId := fun hc => h.1 hc.symm
    simp [occVols, List.filter_cons, hp] at *
    exact ih h.2

theorem occVols_day (secId : Cell) (day : DayMap) (hnd : (day.map Prod.fst).Nodup) :
    occVols secId day = ((mget secId day).map SecRec.volume).toList := by
  induction day with
  | nil => rfl
  | cons p t ih =>
    obtain ⟨k1, v1⟩ := p
    simp only [List.map_cons, List.nodup_cons] at hnd
    by_cases h : k1 = secId
    · subst h
      have ht : occVols k1 t = [] := occVols_nil_of_not_mem k1 t hnd.1
      simp [occVols, List.filter_cons, mget_cons, ht]
      simp [occVols] at ht
      exact ht
    · simp [occVols, List.filter_cons, h, mget_cons]
      have := ih hnd.2
      simp [occVols] at this
      exact this

theorem occVols_append (secId : Cell) (xs ys : List (Cell × SecRec)) :
    occVols secId (xs ++ ys) = occVols secId xs ++ occVols secId ys := by
  simp [occVols, List.filter_append]

theorem occVols_records (secId : Cell) :
    ∀ ds : Dataset, (∀ d ∈ ds, (d.2.map Prod.fst).Nodup) →
    occVols secId (records ds) = appearances secId ds := by
  intro ds
  induction ds with
  | nil => intro _; rfl
  | cons d rest ih =>
    intro hday
    have hrec : records (d :: rest) = d.2 ++ records rest := by simp [records]
    rw [hrec, occVols_append, occVols_day secId d.2 (hday d (List.mem_cons_self d rest)),
      ih fun x hx => hday x (List.mem_cons_of_mem d hx)]
    unfold appearances
    rw [List.filterMap_cons]
    cases h : mget secId d.2 with
    | none => simp [h]
    | some r => simp [h]

/-- C7: for every security observed on at least one day of the dataset (with
each day keyed by distinct security ids, as a JS `Map` is), the computed
entry sums the volumes over exactly the days the security appears, counts
exactly those days, and `average` is the truncating integer division of that
sum by that count. -/
theorem computeAverageVolume_spec (ds : Dataset)
    (hday : ∀ d ∈ ds, (d.2.map Prod.fst).Nodup)
    (secId : Cell) (hocc : appearances secId ds ≠ []) :
    ∃ e, mget secId (computeAverageVolume ds) = some e ∧
      e.count = (appearances secId ds).length ∧
      e.totalVolume = (appearances secId ds).sum ∧
      e.average = (appearances secId ds).sum.tdiv ((appearances secId ds).length : ℤ) := by
  have hbridge : occVols secId (records ds) = appearances secId ds :=
    occVols_records secId ds hday
  unfold computeAverageVolume
  rw [foldl_accumVolumes, mget_map_attachAverage, mget_accumVolumes]
  simp only [mget_nil, hbridge, hocc, if_false]
  exact ⟨_, rfl, rfl, rfl, rfl⟩

/-- Witness for C7: the example given in the spec, a security on exactly 2 of 10 days
with volumes 100 and 300, has 2 appearances summing to 400 and average 200. -/
theorem computeAverageVolume_spec_witness :
    ∃ e, mget (Cell.s "AAA") (computeAverageVolume
      [("d01", []), ("d02", [(Cell.s "AAA", ⟨100, 0⟩)]), ("d03", []), ("d04", []),
       ("d05", []), ("d06", []), ("d07", [(Cell.s "AAA", ⟨300, 0⟩)]), ("d08", []),
       ("d09", []), ("d10", [])]) = some e ∧
      e.count = 2 ∧ e.totalVolume = 400 ∧ e.average = 200 := by
  obtain ⟨e, he, hc, ht, ha⟩ := computeAverageVolume_spec
    [("d01", []), ("d02", [(Cell.s "AAA", ⟨100, 0⟩)]), ("d03", []), ("d04", []),
     ("d05", []), ("d06", []), ("d07", [(Cell.s "AAA", ⟨300, 0⟩)]), ("d08", []),
     ("d09", []), ("d10", [])]
    (by decide) (Cell.s "AAA") (by decide)
  refine ⟨e, he, ?_, ?_, ?_⟩
  · rw [hc]; decide
  · rw [ht]; decide
  · rw [ha]; decide

/-- C10 (implicit): every entry produced by `computeAverageVolume` has
`count ≥ 1` — an entry is created only when a record for that security
exists — so `totalVolume / BigInt(count)` never divides by zero. -/
theorem computeAverageVolume_count_pos (ds : Dataset) (secId : Cell) (e : AvgEntry)
    (h : mget secId (computeAverageVolume ds) = some e) : 1 ≤ e.count := by
  unfold computeAverageVolume at h
  rw [foldl_accumVolumes, mget_map_attachAverage, mget_accumVolumes] at h
  simp only [mget_nil] at h
  by_cases hocc : occVols secId (records ds) = []
  · rw [if_pos hocc] at h
    simp at h
  · rw [if_neg hocc] at h
    simp only [Option.map_some', Option.some.injEq] at h
    have hlen : 1 ≤ (occVols secId (records ds)).length :=
      List.length_pos.mpr hocc
    rw [← h]
    exact hlen


/-- Witness for C10 on a one-day, one-security dataset. -/
theorem computeAverageVolume_count_pos_witness :
    mget (Cell.s "AAA") (computeAverageVolume [("d01", [(Cell.s "AAA", ⟨5, 0⟩)])])
      = some ⟨5, 1, 5⟩ ∧
    1 ≤ AvgEntry.count ⟨5, 1, 5⟩ :=
  ⟨by decide, computeAverageVolume_count_pos [("d01", [(Cell.s "AAA", ⟨5, 0⟩)])]
    (Cell.s "AAA") ⟨5, 1, 5⟩ (by decide)⟩

/-! ### HotStockDetector: `computeHotStocks`

JS (current revision): every (date, security, record) whose security has an
entry in `averageVolume` with non-zero average is pushed as
`{ secId, ratio, turnover }` under its date; there is no threshold filter. -/

/-- HotStockEntry `{ secId, ratio, turnover }`. -/
structure HotEntry where
  secId : Cell
  ratio : ℚ
  turnover : ℤ
deriving DecidableEq

/-- Output of `computeHotStocks`: JS `Map` from date string to entry list. -/
abbrev HotMap : Type := List (String × List HotEntry)

/-- JS `if (!hotStocks.has(date)) hotStocks.set(date, []); hotStocks.get(date).push(e)`. -/
def pushEntry (hotStocks : HotMap) (date : String) (e : HotEntry) : HotMap :=
  let hs1 := if mhas date hotStocks then hotStocks else mset date [] hotStocks
  match mget date hs1 with
  | some arr => mset date (arr ++ [e]) hs1
  | none => hs1

/-- One inner-loop iteration of `computeHotStocks`: skip securities without an
average entry, skip zero averages, otherwise push the ratio/turnover entry
(turnover truncated to whole millions). -/
def hotStep (averageVolume : List (Cell × AvgEntry)) (date : String)
    (hs : HotMap) (p : Cell × SecRec) : HotMap :=
  match mget p.1 averageVolume with
  | none => hs
  | some avgData =>
    if avgData.average = 0 then hs
    else pushEntry hs date
      ⟨p.1, divideBigInt p.2.volume avgData.average, jsTrunc (p.2.turnover / 1000000)⟩

/-- The inner loop of `computeHotStocks` over one day. -/
def processHot (averageVolume : List (Cell × AvgEntry)) (hs : HotMap)
    (date : String) (dayData : DayMap) : HotMap :=
  dayData.foldl (hotStep averageVolume date) hs

/-- JS `computeHotStocks(imoexData, averageVolume)`. -/
def computeHotStocks (imoexData : Dataset) (averageVolume : List (Cell × AvgEntry)) :
    HotMap :=
  imoexData.foldl (fun hs d => processHot averageVolume hs d.1 d.2) []

/-- The entries one day contributes, in iteration order. -/
def dayEntries (averageVolume : List (Cell × AvgEntry)) (dayData : DayMap) :
    List HotEntry :=
  dayData.filterMap fun p =>
    match mget p.1 averageVolume with
    | none => none
    | some avgData =>
      if avgData.average = 0 then none
      else some
        ⟨p.1, divideBigInt p.2.volume avgData.average, jsTrunc (p.2.turnover / 1000000)⟩

theorem mget_pushEntry_ne (hs : HotMap) (date d : String) (e : HotEntry)
    (h : date ≠ d) : mget d (pushEntry hs date e) = mget d hs := by
  unfold pushEntry
  set hs1 := if mhas date hs then hs else mset date [] hs with hh
  have hk : mget d hs1 = mget d hs := by
    rw [hh]
    split
    · rfl
    · exact mget_mset_ne _ _ _ _ h
  cases hg : mget date hs1 with
  | some arr => simp only [hg]; rw [mget_mset_ne _ _ _ _ h, hk]
  | none => simp only [hg]; exact hk

theorem mget_pushEntry_self_none (hs : HotMap) (date : String) (e : HotEntry)
    (h : mget date hs = none) : mget date (pushEntry hs date e) = some [e] := by
  unfold pushEntry
  have hh : mhas date hs = false := by simp [mhas, h]
  simp only [hh, Bool.false_eq_true, if_false, mget_mset_self]
  simp

theorem mget_pushEntry_self_some (hs : HotMap) (date : String) (e : HotEntry)
    (arr : List HotEntry) (h : mget date hs = some arr) :
    mget date (pushEntry hs date e) = some (arr ++ [e]) := by
  unfold pushEntry
  have hh : mhas date hs = true := by simp [mhas, h]
  simp only [hh, if_true, h, mget_mset_self]

theorem mget_hotStep_ne (avg : List (Cell × AvgEntry)) (date d : String)
    (hs : HotMap) (p : Cell × SecRec) (h : date ≠ d) :
    mget d (hotStep avg date hs p) = mget d hs := by
  unfold hotStep
  cases mget p.1 avg with
  | none => rfl
  | some a =>
    by_cases ha : a.average = 0
    · simp only [ha, if_true]
    · simp only [ha, if_false]
      exact mget_pushEntry_ne hs date d _ h

theorem mget_processHot_ne (avg : List (Cell × AvgEntry)) (date d : String)
    (h : date ≠ d) :
    ∀ (dayData : DayMap) (hs : HotMap),
    mget d (processHot avg hs date dayData) = mget d hs := by
  intro dayData
  induction dayData with
  | nil => intro hs; rfl
  | cons p rest ih =>
    intro hs
    have hstep : processHot avg hs date (p :: rest)
        = processHot avg (hotStep avg date hs p) date rest := rfl
    rw [hstep, ih, mget_hotStep_ne avg date d hs p h]

theorem mget_processHot_self (avg : List (Cell × AvgEntry)) (date : String) :
    ∀ (dayData : DayMap) (hs : HotMap),
    mget date (processHot avg hs date dayData) =
      match mget date hs with
      | none =>
          if dayEntries avg dayData = [] then none else some (dayEntries avg dayData)
      | some arr => some (arr ++ dayEntries avg dayData) := by
  intro dayData
  induction dayData with
  | nil =>
    intro hs
    cases h : mget date hs with
    | none => simp [processHot, dayEntries, h]
    | some arr => simp [processHot, dayEntries, h]
  | cons p rest ih =>
    intro hs
    have hstep : processHot avg hs date (p :: rest)
        = processHot avg (hotStep avg date hs p) date rest := rfl
    rw [hstep, ih]
    unfold hotStep
    cases hm : mget p.1 avg with
    | none =>
      have hde : dayEntries avg (p :: rest) = dayEntries avg rest := by
        simp [dayEntries, List.filterMap_cons, hm]
      rw [hde]
    | some a =>
      by_cases ha : a.average = 0
      · have hde : dayEntries avg (p :: rest) = dayEntries avg rest := by
          simp [dayEntries, List.filterMap_cons, hm, ha]
        simp only [ha, if_true]
        rw [hde]
      · have hde : dayEntries avg (p :: rest)
            = (⟨p.1, divideBigInt p.2.volume a.average, jsTrunc (p.2.turnover / 1000000)⟩
                : HotEntry) :: dayEntries avg rest := by
          simp [dayEntries, List.filterMap_cons, hm, ha]
        simp only [ha, if_false]
        rw [hde]
        cases h : mget date hs with
        | none =>
          rw [mget_pushEntry_self_none hs date _ h]
          simp
        | some arr =>
          rw [mget_pushEntry_self_some hs date _ arr h]
          simp

theorem mget_hotFold_not_mem (avg : List (Cell × AvgEntry)) :
    ∀ (ds : Dataset) (hs : HotMap) (d : String), d ∉ ds.map Prod.fst →
    mget d (ds.foldl (fun hs x => processHot avg hs x.1 x.2) hs) = mget d hs := by
  intro ds
  induction ds with
  | nil => intro hs d _; rfl
  | cons x rest ih =>
    intro hs d hd
    simp only [List.map_cons, List.mem_cons, not_or] at hd
    rw [List.foldl_cons, ih _ d hd.2, mget_processHot_ne avg x.1 d (fun hc => hd.1 hc.symm)]

theorem mget_hotFold (avg : List (Cell × AvgEntry)) :
    ∀ (ds : Dataset) (hs : HotMap) (date : String), (ds.map Prod.fst).Nodup →
    mget date (ds.foldl (fun hs x => processHot avg hs x.1 x.2) hs) =
      match mget date ds with
      | none => mget date hs
      | some day =>
        match mget date hs with
        | none =>
            if dayEntries avg day = [] then none else some (dayEntries avg day)
        | some arr => some (arr ++ dayEntries avg day) := by
  intro ds
  induction ds with
  | nil =>
    intro hs date _
    rfl
  | cons x rest ih =>
    intro hs date hnd
    obtain ⟨d0, day0⟩ := x
    simp only [List.map_cons, List.nodup_cons] at hnd
    rw [List.foldl_cons]
    by_cases hd : d0 = date
    · subst hd
      rw [mget_hotFold_not_mem avg rest _ d0 hnd.1, mget_processHot_self, mget_cons]
      simp
    · rw [ih _ date hnd.2, mget_cons, if_neg hd,
        mget_processHot_ne avg d0 date (fun hc => hd hc)]

/-- Lookup characterization of `computeHotStocks` for a dataset with distinct
dates: a date is present in the output exactly when it contributes at least
one entry, and then its entries are those of that day in iteration order. -/
theorem mget_computeHotStocks (ds : Dataset) (avg : List (Cell × AvgEntry))
    (date : String) (hnd : (ds.map Prod.fst).Nodup) :
    mget date (computeHotStocks ds avg) =
      match mget date ds with
      | none => none
      | some day =>
          if dayEntries avg day = [] then none else some (dayEntries avg day) := by
  unfold computeHotStocks
  rw [mget_hotFold avg ds [] date hnd]
  cases h : mget date ds with
  | none => simp
  | some day => simp

/-- Every security occurring anywhere in the dataset has an averages entry. -/
theorem mget_computeAverageVolume_isSome (ds : Dataset) (secId : Cell)
    (h : ∃ rec, (secId, rec) ∈ records ds) :
    (mget secId (computeAverageVolume ds)).isSome = true := by
  obtain ⟨rec, hmem⟩ := h
  have hfil : (secId, rec) ∈ (records ds).filter fun p => decide (p.1 = secId) :=
    List.mem_filter.mpr ⟨hmem, by simp⟩
  have hocc : occVols secId (records ds) ≠ [] := by
    unfold occVols
    intro hc
    rw [List.map_eq_nil_iff] at hc
    rw [hc] at hfil
    simp at hfil
  unfold computeAverageVolume
  rw [foldl_accumVolumes, mget_map_attachAverage, mget_accumVolumes]
  simp [hocc]

/-- C1: for every (date, security, record) triple of the dataset (dates
distinct, as in a JS `Map`), the security always has a computed average
entry, and the pair is emitted under its date if and only if that average is
non-zero — there is no ratio threshold. -/
theorem computeHotStocks_iff (ds : Dataset)
    (hnd : (ds.map Prod.fst).Nodup)
    (date : String) (day : DayMap) (secId : Cell) (stockData : SecRec)
    (hdate : mget date ds = some day) (hsec : mget secId day = some stockData) :
    ∃ avgData, mget secId (computeAverageVolume ds) = some avgData ∧
      ((∃ arr, mget date (computeHotStocks ds (computeAverageVolume ds)) = some arr ∧
          ∃ e ∈ arr, e.secId = secId)
        ↔ avgData.average ≠ 0) := by
  have hpair : (secId, stockData) ∈ day := mget_some_mem hsec
  have hdaymem : (date, day) ∈ ds := mget_some_mem hdate
  have hrecmem : (secId, stockData) ∈ records ds := by
    unfold records
    rw [List.mem_flatMap]
    exact ⟨(date, day), hdaymem, hpair⟩
  have hsome := mget_computeAverageVolume_isSome ds secId ⟨stockData, hrecmem⟩
  obtain ⟨avgData, havg⟩ := Option.isSome_iff_exists.mp hsome
  have hkey0 := mget_computeHotStocks ds (computeAverageVolume ds) date hnd
  rw [hdate] at hkey0
  have hkey : mget date (computeHotStocks ds (computeAverageVolume ds))
      = if dayEntries (computeAverageVolume ds) day = [] then none
        else some (dayEntries (computeAverageVolume ds) day) := hkey0
  refine ⟨avgData, havg, ?_⟩
  rw [hkey]
  constructor
  · rintro ⟨arr, harr, e, hearr, hesec⟩
    by_cases hde : dayEntries (computeAverageVolume ds) day = []
    · rw [if_pos hde] at harr
      exact absurd harr (by simp)
    · rw [if_neg hde] at harr
      obtain rfl : dayEntries (computeAverageVolume ds) day = arr := Option.some.inj harr
      rw [dayEntries, List.mem_filterMap] at hearr
      obtain ⟨p, hp, hfp⟩ := hearr
      cases hm : mget p.1 (computeAverageVolume ds) with
      | none => rw [hm] at hfp; simp at hfp
      | some a =>
        rw [hm] at hfp
        have hfp2 : (if a.average = 0 then none
            else some (⟨p.1, divideBigInt p.2.volume a.average,
              jsTrunc (p.2.turnover / 1000000)⟩ : HotEntry)) = some e := hfp
        by_cases ha : a.average = 0
        · rw [if_pos ha] at hfp2
          simp at hfp2
        · rw [if_neg ha] at hfp2
          obtain rfl := Option.some.inj hfp2
          have hps : p.1 = secId := hesec
          rw [hps] at hm
          rw [havg] at hm
          obtain rfl : a = avgData := (Option.some.inj hm).symm
          exact ha
  · intro hne
    have hmem : (⟨secId, divideBigInt stockData.volume avgData.average,
        jsTrunc (stockData.turnover / 1000000)⟩ : HotEntry)
        ∈ dayEntries (computeAverageVolume ds) day := by
      rw [dayEntries, List.mem_filterMap]
      refine ⟨(secId, stockData), hpair, ?_⟩
      show (match mget secId (computeAverageVolume ds) with
        | none => none
        | some avgData =>
          if avgData.average = 0 then none
          else some (⟨secId, divideBigInt stockData.volume avgData.average,
            jsTrunc (stockData.turnover / 1000000)⟩ : HotEntry))
        = some (⟨secId, divideBigInt stockData.volume avgData.average,
            jsTrunc (stockData.turnover / 1000000)⟩ : HotEntry)
      simp only [havg]
      rw [if_neg hne]
    have hde : dayEntries (computeAverageVolume ds) day ≠ [] :=
      List.ne_nil_of_mem hmem
    exact ⟨dayEntries (computeAverageVolume ds) day, by rw [if_neg hde], _, hmem, rfl⟩

/-- Witness for C1 on a one-day, one-security dataset with non-zero average. -/
theorem computeHotStocks_iff_witness :
    ∃ avgData, mget (Cell.s "AAA")
        (computeAverageVolume [("d1", [(Cell.s "AAA", ⟨100, 0⟩)])]) = some avgData ∧
      ((∃ arr, mget "d1" (computeHotStocks [("d1", [(Cell.s "AAA", ⟨100, 0⟩)])]
            (computeAverageVolume [("d1", [(Cell.s "AAA", ⟨100, 0⟩)])])) = some arr ∧
          ∃ e ∈ arr, e.secId = Cell.s "AAA")
        ↔ avgData.average ≠ 0) :=
  computeHotStocks_iff [("d1", [(Cell.s "AAA", ⟨100, 0⟩)])] (by decide)
    "d1" [(Cell.s "AAA", ⟨100, 0⟩)] (Cell.s "AAA") ⟨100, 0⟩ rfl rfl

/-! ### HistoryFetcher / DayAggregator / WindowLoader: `loadData`

The JS loop, per date: `while (page >= 0) { try { fetch; read columns; merge
rows; read cursor; advance or stop } catch { log; alert } }`.  A missing
history or cursor column does `return;` (aborting the entire load with no
result); a rejected fetch or a thrown conversion error lands in `catch`,
which only logs — the loop then re-runs with the same `page` offset. -/

/-- One JSON table: a column-name list and a list of rows. -/
structure Table where
  columns : List String
  data : List (List Cell)
deriving DecidableEq

/-- One parsed response page: the `history` table and the `history.cursor`
table. -/
structure Page where
  history : Table
  cursor : Table
deriving DecidableEq

/-- One network response: a transport failure (non-2xx status or rejected
fetch) or a parsed page. -/
abbrev Resp : Type := Except Unit Page

/-- One issued request: the queried date and the `start` offset. -/
structure FetchReq where
  date : String
  start : ℚ
deriving DecidableEq

/-- JS `Array.prototype.indexOf` on the column list: the index, or `-1`. -/
def jsIndexOf (l : List String) (s : String) : ℤ :=
  match l.findIdx? (fun x => x == s) with
  | some i => (i : ℤ)
  | none => -1

/-- Result of merging the rows of one page: all merged, or a thrown
conversion/access error after merging an initial segment (the JS `catch` sees the
partially mutated day map). -/
inductive RowsResult : Type
  | done (day : DayMap)
  | err (day : DayMap)
deriving DecidableEq

/-- Merge one history row:
`imoexDay.set(row[idxName], { volume: BigInt(row[idxVol]), turnover: row[idxVol] * row[idxClose] })`.
`none` models a thrown JS error: an out-of-range access, a non-numeric cell
where a number is multiplied, or `BigInt` of a non-integer. -/
def addRow (iName iVol iClose : ℕ) (day : DayMap) (row : List Cell) : Option DayMap :=
  match row[iName]?, row[iVol]?, row[iClose]? with
  | some key, some (Cell.n vol), some (Cell.n close) =>
    if vol.den = 1 then some (mset key ⟨vol.num, vol * close⟩ day) else none
  | _, _, _ => none

/-- The row-merging loop of one page. -/
def addRows (iName iVol iClose : ℕ) : DayMap → List (List Cell) → RowsResult
  | day, [] => .done day
  | day, row :: rest =>
    match addRow iName iVol iClose day row with
    | some day2 => addRows iName iVol iClose day2 rest
    | none => .err day

/-- Outcome of the `try` block for one fetched page. -/
inductive PageStep : Type
  | schemaAbort
  | jsErr (day : DayMap)
  | okPage (day : DayMap) (next : ℚ)
deriving DecidableEq

/-- The body of the `try` block after a successful fetch: locate the four
history columns (missing one aborts the load), merge the rows, locate the
three cursor columns (missing one aborts the load), read the single cursor
row, and either stop (`page = -1`) when `INDEX + PAGESIZE >= TOTAL` or
advance by `PAGESIZE`. -/
def processPage (day : DayMap) (page : ℚ) (pg : Page) : PageStep :=
  let columns := pg.history.columns
  let idxName := jsIndexOf columns "SECID"
  let idxVol := jsIndexOf columns "VOLUME"
  let idxDate := jsIndexOf columns "TRADEDATE"
  let idxClose := jsIndexOf columns "CLOSE"
  if idxName = -1 ∨ idxVol = -1 ∨ idxDate = -1 ∨ idxClose = -1 then .schemaAbort
  else
    match addRows idxName.toNat idxVol.toNat idxClose.toNat day pg.history.data with
    | .err day2 => .jsErr day2
    | .done day2 =>
      let cursorColumns := pg.cursor.columns
      let idxPageIndex := jsIndexOf cursorColumns "INDEX"
      let idxPageTotal := jsIndexOf cursorColumns "TOTAL"
      let idxPageSize := jsIndexOf cursorColumns "PAGESIZE"
      if idxPageIndex = -1 ∨ idxPageTotal = -1 ∨ idxPageSize = -1 then .schemaAbort
      else
        match pg.cursor.data[0]? with
        | none => .jsErr day2
        | some pageData =>
          match pageData[idxPageIndex.toNat]?, pageData[idxPageTotal.toNat]?,
              pageData[idxPageSize.toNat]? with
          | some (Cell.n pageIndex), some (Cell.n pageTotal), some (Cell.n pageSize) =>
            if pageIndex + pageSize ≥ pageTotal then .okPage day2 (-1)
            else .okPage day2 (page + pageSize)
          | _, _, _ => .jsErr day2

/-- Outcome of the pagination loop for one date. -/
inductive DayResult : Type
  | timeout
  | aborted
  | finished (day : DayMap) (rest : List Resp)

/-- The `while (page >= 0)` loop for one date.  Each iteration issues one
fetch and consumes one response of the stream; an exhausted stream is
`timeout` (in JS the next fetch never resolves, or the loop keeps spinning).
A transport error or thrown conversion error is caught: the loop re-runs at
the same offset with the next response.  A missing column aborts the whole
load. -/
def dayLoop : String → ℚ → DayMap → List Resp → List FetchReq →
    DayResult × List FetchReq
  | date, page, _, [], tr => (.timeout, tr ++ [⟨date, page⟩])
  | date, page, day, .error _ :: rest, tr =>
      dayLoop date page day rest (tr ++ [⟨date, page⟩])
  | date, page, day, .ok pg :: rest, tr =>
      match processPage day page pg with
      | .schemaAbort => (.aborted, tr ++ [⟨date, page⟩])
      | .jsErr day2 => dayLoop date page day2 rest (tr ++ [⟨date, page⟩])
      | .okPage day2 next =>
        if next ≥ 0 then dayLoop date next day2 rest (tr ++ [⟨date, page⟩])
        else (.finished day2 rest, tr ++ [⟨date, page⟩])

/-- Outcome of a whole `loadData` run. -/
inductive LoadResult : Type
  | timeout
  | aborted
  | done (imoexData : Dataset)
deriving DecidableEq

/-- The outer loop of `loadData` over the business-day sequence: each date
starts a fresh day map at offset 0; an abort ends the whole run with no
dataset. -/
def loadLoop : List String → List Resp → Dataset → List FetchReq →
    LoadResult × List FetchReq
  | [], _, acc, tr => (.done acc, tr)
  | date :: restDates, resps, acc, tr =>
    match dayLoop date 0 [] resps tr with
    | (.timeout, tr2) => (.timeout, tr2)
    | (.aborted, tr2) => (.aborted, tr2)
    | (.finished day rest, tr2) =>
        loadLoop restDates rest (mset date day acc) tr2

/-- JS `loadData(daysBack)` started on day `today`, against a stream of
responses. -/
def loadData (daysBack : ℕ) (today : ℤ) (resps : List Resp) :
    LoadResult × List FetchReq :=
  loadLoop (workDaysGenerator daysBack today) resps [] []

/-- A page whose history table has the canonical MOEX column order and whose
cursor has the canonical `INDEX, TOTAL, PAGESIZE` columns with one row. -/
def mkPage (rows : List (List Cell)) (i t s : ℚ) : Page :=
  ⟨⟨["SECID", "VOLUME", "TRADEDATE", "CLOSE"], rows⟩,
   ⟨["INDEX", "TOTAL", "PAGESIZE"], [[Cell.n i, Cell.n t, Cell.n s]]⟩⟩

/-- Evaluating `processPage` on a canonical page: merge the rows and apply the cursor
rule — stop (`page := -1`) exactly when `INDEX + PAGESIZE >= TOTAL`, else
advance the offset by `PAGESIZE`. -/
theorem processPage_mkPage (day : DayMap) (page : ℚ) (rows : List (List Cell))
    (i t s : ℚ) :
    processPage day page (mkPage rows i t s) =
      match addRows 0 1 3 day rows with
      | .err day2 => .jsErr day2
      | .done day2 =>
        if i + s ≥ t then .okPage day2 (-1) else .okPage day2 (page + s) := by
  have hsec : jsIndexOf ["SECID", "VOLUME", "TRADEDATE", "CLOSE"] "SECID" = 0 := rfl
  have hvol : jsIndexOf ["SECID", "VOLUME", "TRADEDATE", "CLOSE"] "VOLUME" = 1 := rfl
  have htd : jsIndexOf ["SECID", "VOLUME", "TRADEDATE", "CLOSE"] "TRADEDATE" = 2 := rfl
  have hcl : jsIndexOf ["SECID", "VOLUME", "TRADEDATE", "CLOSE"] "CLOSE" = 3 := rfl
  have hidx : jsIndexOf ["INDEX", "TOTAL", "PAGESIZE"] "INDEX" = 0 := rfl
  have htot : jsIndexOf ["INDEX", "TOTAL", "PAGESIZE"] "TOTAL" = 1 := rfl
  have hps : jsIndexOf ["INDEX", "TOTAL", "PAGESIZE"] "PAGESIZE" = 2 := rfl
  unfold processPage mkPage
  simp only [hsec, hvol, htd, hcl, hidx, htot, hps]
  norm_num
  rfl

/-- C3: the pagination termination rule — on a canonical page, the fetch loop
stops exactly when the cursor row satisfies `INDEX + PAGESIZE >= TOTAL` and
otherwise advances the next offset by `PAGESIZE`; and on the synthetic 3-page
sequence with `PAGESIZE = 2`, `TOTAL = 5`, the loop performs exactly the 3
fetches at offsets 0, 2, 4 and the resulting snapshot holds all 5 rows of
the 3 pages. -/
theorem dayAggregator_pagination :
    (∀ (day : DayMap) (page : ℚ) (rows : List (List Cell)) (i t s : ℚ)
        (day2 : DayMap) (next : ℚ),
      processPage day page (mkPage rows i t s) = .okPage day2 next →
        ((i + s ≥ t ∧ next = -1) ∨ (¬ (i + s ≥ t) ∧ next = page + s))) ∧
    loadLoop ["2024-01-04"]
      [Except.ok (mkPage
          [[Cell.s "AAA", Cell.n 10, Cell.s "2024-01-04", Cell.n 1],
           [Cell.s "BBB", Cell.n 20, Cell.s "2024-01-04", Cell.n 1]] 0 5 2),
       Except.ok (mkPage
          [[Cell.s "CCC", Cell.n 30, Cell.s "2024-01-04", Cell.n 1],
           [Cell.s "DDD", Cell.n 40, Cell.s "2024-01-04", Cell.n 1]] 2 5 2),
       Except.ok (mkPage
          [[Cell.s "EEE", Cell.n 50, Cell.s "2024-01-04", Cell.n 1]] 4 5 2)]
      [] []
    = (.done [("2024-01-04",
        [(Cell.s "AAA", ⟨10, 10⟩), (Cell.s "BBB", ⟨20, 20⟩), (Cell.s "CCC", ⟨30, 30⟩),
         (Cell.s "DDD", ⟨40, 40⟩), (Cell.s "EEE", ⟨50, 50⟩)])],
       [⟨"2024-01-04", 0⟩, ⟨"2024-01-04", 2⟩, ⟨"2024-01-04", 4⟩]) := by
  constructor
  · intro day page rows i t s day2 next h
    rw [processPage_mkPage] at h
    cases haddr : addRows 0 1 3 day rows with
    | err d2 =>
      rw [haddr] at h
      simp at h
    | done d2 =>
      rw [haddr] at h
      have h2 : (if i + s ≥ t then PageStep.okPage d2 (-1)
          else PageStep.okPage d2 (page + s)) = .okPage day2 next := h
      by_cases hc : i + s ≥ t
      · rw [if_pos hc] at h2
        left
        refine ⟨hc, ?_⟩
        injection h2 with h3 h4
        exact h4.symm
      · rw [if_neg hc] at h2
        right
        refine ⟨hc, ?_⟩
        injection h2 with h3 h4
        exact h4.symm
  · norm_num [loadLoop, dayLoop, processPage_mkPage, addRows, addRow, mset]
    decide

/-- Evaluation of the third synthetic page: the cursor `INDEX = 4`,
`PAGESIZE = 2`, `TOTAL = 5` satisfies the stop condition. -/
theorem processPage_stop_example :
    processPage [] 0 (mkPage [] 4 5 2) = PageStep.okPage [] (-1) := by
  norm_num [processPage_mkPage, addRows]

/-- Witness for C3 at the third synthetic page. -/
theorem dayAggregator_pagination_witness :
    ((4 : ℚ) + 2 ≥ 5 ∧ (-1 : ℚ) = -1) ∨ (¬ ((4 : ℚ) + 2 ≥ 5) ∧ (-1 : ℚ) = 0 + 2) :=
  dayAggregator_pagination.1 [] 0 [] 4 5 2 [] (-1) processPage_stop_example

/-- A page whose history table lacks the `CLOSE` column makes the `try`
block hit the `return;` branch. -/
theorem processPage_missing_close (day : DayMap) (page : ℚ) (pg : Page)
    (h : jsIndexOf pg.history.columns "CLOSE" = -1) :
    processPage day page pg = .schemaAbort := by
  unfold processPage
  simp [h]

/-- C2 counterexample: a load whose first fetch fails with a `TransportError`
is NOT aborted — the `catch` only logs, the loop retries the same offset, and
after the second (successful) response the invocation returns a complete
usable dataset.  The trace shows the same offset 0 requested twice. -/
theorem loadData_transport_retry_counterexample :
    loadData 0 19727
      [Except.error (),
       Except.ok (mkPage [[Cell.s "AAA", Cell.n 100, Cell.s "2024-01-04", Cell.n 2]] 0 1 100)]
    = (.done [("2024-01-04", [(Cell.s "AAA", ⟨100, 200⟩)])],
       [⟨"2024-01-04", 0⟩, ⟨"2024-01-04", 0⟩]) := by
  have hdates : workDaysGenerator 0 19727 = ["2024-01-04"] := rfl
  unfold loadData
  rw [hdates]
  norm_num [loadLoop, dayLoop, processPage_mkPage, addRows, addRow, mset]

/-- C2 as amended: a missing required column (SchemaError) aborts the whole
load immediately with no usable result; a failed fetch (TransportError) does
NOT abort — the error is caught and the loop retries the same page offset,
and a stream of nothing but transport errors never produces any result (the
loop spins; the run only stops for lack of further responses). -/
theorem loadData_error_handling :
    (∀ (pg : Page), jsIndexOf pg.history.columns "CLOSE" = -1 →
      ∀ (date : String) (page : ℚ) (day : DayMap) (rest : List Resp)
        (tr : List FetchReq),
        dayLoop date page day (Except.ok pg :: rest) tr
          = (.aborted, tr ++ [⟨date, page⟩])) ∧
    (∀ (pg : Page), jsIndexOf pg.history.columns "CLOSE" = -1 →
      ∀ (date : String) (restDates : List String) (rest : List Resp)
        (acc : Dataset) (tr : List FetchReq),
        loadLoop (date :: restDates) (Except.ok pg :: rest) acc tr
          = (.aborted, tr ++ [⟨date, 0⟩])) ∧
    (∀ (date : String) (page : ℚ) (day : DayMap) (rest : List Resp)
        (tr : List FetchReq),
      dayLoop date page day (Except.error () :: rest) tr
        = dayLoop date page day rest (tr ++ [⟨date, page⟩])) ∧
    (∀ (n : ℕ) (date : String) (page : ℚ) (day : DayMap) (tr : List FetchReq),
      (dayLoop date page day (List.replicate n (Except.error ())) tr).1
        = DayResult.timeout) := by
  refine ⟨?_, ?_, ?_, ?_⟩
  · intro pg h date page day rest tr
    have hp := processPage_missing_close day page pg h
    simp [dayLoop, hp]
  · intro pg h date restDates rest acc tr
    have hp := processPage_missing_close [] 0 pg h
    simp [loadLoop, dayLoop, hp]
  · intro date page day rest tr
    rfl
  · intro n
    induction n with
    | zero => intro date page day tr; rfl
    | succ k ih =>
      intro date page day tr
      rw [List.replicate_succ]
      exact ih date page day (tr ++ [⟨date, page⟩])

/-- Witness for C2 (amended) at a page missing `CLOSE` and at concrete
transport errors. -/
theorem loadData_error_handling_witness :
    dayLoop "d" 0 [] [Except.ok ⟨⟨["SECID", "VOLUME", "TRADEDATE"], []⟩, ⟨[], []⟩⟩] []
      = (.aborted, [⟨"d", 0⟩]) ∧
    loadLoop ["d"] [Except.ok ⟨⟨["SECID", "VOLUME", "TRADEDATE"], []⟩, ⟨[], []⟩⟩] [] []
      = (.aborted, [⟨"d", 0⟩]) ∧
    dayLoop "d" 0 [] [Except.error ()] [] = dayLoop "d" 0 [] [] [⟨"d", 0⟩] ∧
    (dayLoop "d" 0 [] (List.replicate 5 (Except.error ())) []).1 = DayResult.timeout :=
  ⟨loadData_error_handling.1 ⟨⟨["SECID", "VOLUME", "TRADEDATE"], []⟩, ⟨[], []⟩⟩ rfl
      "d" 0 [] [] [],
   loadData_error_handling.2.1 ⟨⟨["SECID", "VOLUME", "TRADEDATE"], []⟩, ⟨[], []⟩⟩ rfl
      "d" [] [] [] [],
   loadData_error_handling.2.2.1 "d" 0 [] [] [],
   loadData_error_handling.2.2.2 5 "d" 0 [] []⟩

/-! ### ResultCache: `getHotStocks`

JS: a module-level `Map`; key `hotStocks_${daysBack}_${formatDate(new Date())}`.
On a miss: full load, compute averages and hot stocks, `clear()` the cache,
store the single result.  Then the stored value is returned. -/

/-- The single-slot cache: JS `cacheImoexData`. -/
abbrev Cache : Type := List (String × HotMap)

/-- Result of one `getHotStocks` invocation: the hot-stocks map, a thrown JS
error (the load aborted and `undefined` reached `computeAverageVolume`), or a
hung load. -/
inductive GHSResult : Type
  | ok (hotStocks : HotMap)
  | jsFailure
  | timeout
deriving DecidableEq

/-- JS `` `hotStocks_${daysBack}_${formatDate(new Date())}` ``. -/
def cacheKeyFor (daysBack : ℕ) (today : ℤ) : String :=
  "hotStocks_" ++ toString daysBack ++ "_" ++ formatDate today

/-- JS `getHotStocks(daysBack)` run on calendar day `today` against a
response stream, with explicit cache state; returns the result, the new
cache state, and the issued requests. -/
def getHotStocks (daysBack : ℕ) (today : ℤ) (resps : List Resp) (cache : Cache) :
    GHSResult × Cache × List FetchReq :=
  if mhas (cacheKeyFor daysBack today) cache then
    match mget (cacheKeyFor daysBack today) cache with
    | some hs => (.ok hs, cache, [])
    | none => (.jsFailure, cache, [])
  else
    match loadData daysBack today resps with
    | (.timeout, tr) => (.timeout, cache, tr)
    | (.aborted, tr) => (.jsFailure, cache, tr)
    | (.done moexData, tr) =>
      let averageVolume := computeAverageVolume moexData
      let hotStocks := computeHotStocks moexData averageVolume
      (.ok hotStocks, mset (cacheKeyFor daysBack today) hotStocks [], tr)

/-- C8: if a `getHotStocks` call succeeds, then any second call with the same
`daysBack` on the same calendar day issues zero network requests and returns
the stored result with the cache unchanged; and when the first call was a
miss, the cache was cleared before the store, so the new cache is exactly
the one-entry list regardless of what the cache held before. -/
theorem getHotStocks_cache (daysBack : ℕ) (today : ℤ) (resps : List Resp)
    (cache : Cache) (out : HotMap) (c1 : Cache) (t1 : List FetchReq)
    (h1 : getHotStocks daysBack today resps cache = (.ok out, c1, t1)) :
    (∀ resps2 : List Resp, getHotStocks daysBack today resps2 c1 = (.ok out, c1, [])) ∧
    (mhas (cacheKeyFor daysBack today) cache = false →
      c1 = [(cacheKeyFor daysBack today, out)]) := by
  unfold getHotStocks at h1 ⊢
  by_cases hc : mhas (cacheKeyFor daysBack today) cache = true
  · rw [if_pos hc] at h1
    cases hm : mget (cacheKeyFor daysBack today) cache with
    | none =>
      rw [hm] at h1
      simp at h1
    | some hs =>
      rw [hm] at h1
      simp only [Prod.mk.injEq, GHSResult.ok.injEq] at h1
      obtain ⟨rfl, rfl, rfl⟩ := h1
      constructor
      · intro resps2
        rw [if_pos hc, hm]
      · intro hfalse
        rw [hc] at hfalse
        exact absurd hfalse (by simp)
  · rw [if_neg hc] at h1
    cases hload : loadData daysBack today resps with
    | mk lr tr =>
      rw [hload] at h1
      cases lr with
      | timeout => simp at h1
      | aborted => simp at h1
      | done moexData =>
        simp only [Prod.mk.injEq, GHSResult.ok.injEq] at h1
        obtain ⟨rfl, rfl, rfl⟩ := h1
        have hc1 : mset (cacheKeyFor daysBack today)
            (computeHotStocks moexData (computeAverageVolume moexData)) ([] : Cache)
            = [(cacheKeyFor daysBack today,
                computeHotStocks moexData (computeAverageVolume moexData))] := rfl
        constructor
        · intro resps2
          have hhas : mhas (cacheKeyFor daysBack today)
              (mset (cacheKeyFor daysBack today)
                (computeHotStocks moexData (computeAverageVolume moexData))
                ([] : Cache)) = true := by
            simp [mhas]
          rw [if_pos hhas, mget_mset_self]
        · intro _
          exact hc1

/-- A full concrete first call: empty cache, one transport error then one
good page; the call loads, computes, and stores the single result. -/
theorem getHotStocks_example_run :
    getHotStocks 0 19727
      [Except.error (),
       Except.ok (mkPage [[Cell.s "AAA", Cell.n 100, Cell.s "2024-01-04", Cell.n 2]] 0 1 100)]
      []
    = (.ok [("2024-01-04", [⟨Cell.s "AAA", 1, 0⟩])],
       [("hotStocks_0_2024-01-05", [("2024-01-04", [⟨Cell.s "AAA", 1, 0⟩])])],
       [⟨"2024-01-04", 0⟩, ⟨"2024-01-04", 0⟩]) := by
  have hkey : cacheKeyFor 0 19727 = "hotStocks_0_2024-01-05" := rfl
  have hload : loadData 0 19727
      [Except.error (),
       Except.ok (mkPage [[Cell.s "AAA", Cell.n 100, Cell.s "2024-01-04", Cell.n 2]] 0 1 100)]
      = (.done [("2024-01-04", [(Cell.s "AAA", ⟨100, 200⟩)])],
         [⟨"2024-01-04", 0⟩, ⟨"2024-01-04", 0⟩]) := by
    have hdates : workDaysGenerator 0 19727 = ["2024-01-04"] := rfl
    unfold loadData
    rw [hdates]
    norm_num [loadLoop, dayLoop, processPage_mkPage, addRows, addRow, mset]
  have havg : computeAverageVolume [("2024-01-04", [(Cell.s "AAA", ⟨100, 200⟩)])]
      = [(Cell.s "AAA", ⟨100, 1, 100⟩)] := rfl
  have hhot : computeHotStocks [("2024-01-04", [(Cell.s "AAA", ⟨100, 200⟩)])]
      [(Cell.s "AAA", ⟨100, 1, 100⟩)]
      = [("2024-01-04", [⟨Cell.s "AAA", 1, 0⟩])] := by
    norm_num [computeHotStocks, processHot, hotStep, pushEntry, mget, mhas, mset,
      divideBigInt, jsTrunc, round_eq, Int.tdiv]
  unfold getHotStocks
  rw [if_neg (show ¬ mhas (cacheKeyFor 0 19727) ([] : Cache) = true by decide)]
  simp only [hload, havg, hhot, hkey]
  rfl

/-- Witness for C8: the first call stores its result; the second call with
the same `daysBack` on the same day issues zero requests and returns the
stored result; the cache holds exactly the single entry. -/
theorem getHotStocks_cache_witness :
    getHotStocks 0 19727
      [Except.error (),
       Except.ok (mkPage [[Cell.s "AAA", Cell.n 100, Cell.s "2024-01-04", Cell.n 2]] 0 1 100)]
      []
      = (.ok [("2024-01-04", [⟨Cell.s "AAA", 1, 0⟩])],
         [("hotStocks_0_2024-01-05", [("2024-01-04", [⟨Cell.s "AAA", 1, 0⟩])])],
         [⟨"2024-01-04", 0⟩, ⟨"2024-01-04", 0⟩]) ∧
    getHotStocks 0 19727 []
      [("hotStocks_0_2024-01-05", [("2024-01-04", [⟨Cell.s "AAA", 1, 0⟩])])]
      = (.ok [("2024-01-04", [⟨Cell.s "AAA", 1, 0⟩])],
         [("hotStocks_0_2024-01-05", [("2024-01-04", [⟨Cell.s "AAA", 1, 0⟩])])], []) ∧
    [("hotStocks_0_2024-01-05", [("2024-01-04", [(⟨Cell.s "AAA", 1, 0⟩ : HotEntry)])])]
      = [(cacheKeyFor 0 19727, [("2024-01-04", [(⟨Cell.s "AAA", 1, 0⟩ : HotEntry)])])] := by
  refine ⟨getHotStocks_example_run, ?_, ?_⟩
  · exact (getHotStocks_cache 0 19727
      [Except.error (),
       Except.ok (mkPage [[Cell.s "AAA", Cell.n 100, Cell.s "2024-01-04", Cell.n 2]] 0 1 100)]
      [] [("2024-01-04", [⟨Cell.s "AAA", 1, 0⟩])]
      [("hotStocks_0_2024-01-05", [("2024-01-04", [⟨Cell.s "AAA", 1, 0⟩])])]
      [⟨"2024-01-04", 0⟩, ⟨"2024-01-04", 0⟩] getHotStocks_example_run).1 []
  · exact (getHotStocks_cache 0 19727
      [Except.error (),
       Except.ok (mkPage [[Cell.s "AAA", Cell.n 100, Cell.s "2024-01-04", Cell.n 2]] 0 1 100)]
      [] [("2024-01-04", [⟨Cell.s "AAA", 1, 0⟩])]
      [("hotStocks_0_2024-01-05", [("2024-01-04", [⟨Cell.s "AAA", 1, 0⟩])])]
      [⟨"2024-01-04", 0⟩, ⟨"2024-01-04", 0⟩] getHotStocks_example_run).2 (by decide)

end Moex
